import Mathlib

/-!
# Verification of `ilqr_planner` (colormotor/ilqr_planner)

Shallow embedding of the repository's C++ sources:

* `src/ilqr_planner/ilqr_planner/src/system/SpacetimeKeypoint.cpp` —
  the time-augmented keypoint (`getState`, `diff`).
* `src/ilqr_planner/ilqr_planner/include/ilqr_planner/solver/AL-ILQR.h` —
  the AL-ILQR solver interface.  The header only declares `solve`,
  `augmentedLossK` and `constraints`; the corresponding `.cpp` is not part
  of the visible sources, so those operations are modelled from the
  specification (each such definition carries a `Modelled from the spec:`
  doc comment naming what is missing).

`Eigen::VectorXd` is modelled as `List ℚ` (a dynamically sized vector of
reals; exact rational arithmetic stands in for `double`), and
`Eigen::MatrixXd` as `List (List ℚ)` (a list of rows).
-/

namespace IlqrPlanner

/-- A dynamically sized real vector (`Eigen::VectorXd`). -/
abbrev Vec := List ℚ

/-- A dynamically sized real matrix as a list of rows (`Eigen::MatrixXd`). -/
abbrev Mat := List (List ℚ)

/-- Componentwise vector addition. -/
def vadd (a b : Vec) : Vec := List.zipWith (· + ·) a b

/-- Componentwise vector subtraction. -/
def vsub (a b : Vec) : Vec := List.zipWith (· - ·) a b

/-- Scalar multiple of a vector. -/
def smul (c : ℚ) (v : Vec) : Vec := v.map (fun x => c * x)

/-- Dot product of two vectors. -/
def dot (a b : Vec) : ℚ := (List.zipWith (· * ·) a b).sum

/-- Matrix–vector product (row-wise dot products). -/
def matVec (M : Mat) (v : Vec) : Vec := M.map (fun row => dot row v)

/-! ## SpacetimeKeypoint (`src/system/SpacetimeKeypoint.cpp`)

`SpacetimeKeypoint` derives from `PosOrnKeypoint`, whose `getState` and
`diff` implementations live outside the visible sources.  They are
therefore abstract data of the model: a `SpacetimeKeypoint` carries the
underlying pose state vector and pose residual function as fields,
together with the target's continuous time `continuous_time_`. -/

structure SpacetimeKeypoint where
  /-- The vector returned by `PosOrnKeypoint::getState()` (external base class). -/
  poseState : Vec
  /-- The residual function `PosOrnKeypoint::diff` (external base class). -/
  poseDiff : Vec → Vec
  /-- Member `continuous_time_`: the target's continuous time value. -/
  continuous_time_ : ℚ

/-- `SpacetimeKeypoint::getState` (SpacetimeKeypoint.cpp lines 12–17):
builds `state_augmented` of size `state.rows() + 1` and fills it by
comma-initialization `state_augmented << state, continuous_time_`, i.e.
the base-class state with `continuous_time_` appended. -/
def SpacetimeKeypoint.getState (kp : SpacetimeKeypoint) : Vec :=
  kp.poseState ++ [kp.continuous_time_]

/-- `SpacetimeKeypoint::diff` (SpacetimeKeypoint.cpp lines 19–24):
`residual = PosOrnKeypoint::diff(state.head(state.rows() - 1))`, then
`residual_augmented << residual, continuous_time_ - state(state.rows() - 1)`.
The read of entry `state.rows() - 1` (and the `head` of length
`state.rows() - 1`) is in range only for a non-empty `state`; an
out-of-range Eigen access is modelled as `none`. -/
def SpacetimeKeypoint.diff (kp : SpacetimeKeypoint) (state : Vec) : Option Vec :=
  match state[state.length - 1]? with
  | none => none
  | some t =>
      some (kp.poseDiff (state.take (state.length - 1)) ++ [kp.continuous_time_ - t])

/-! ## AL-ILQR solver (`include/ilqr_planner/solver/AL-ILQR.h`)

The header declares `struct Constraint`, the solver class with members
`s`, `inequality`, `multipliers`, and the operations `solve`,
`augmentedLossK` and `constraints`.  Their implementations are not in the
visible sources; they are modelled from the specification below. -/

/-- `struct Constraint` (AL-ILQR.h lines 40–43): an affine inequality
family `A·[x;u] - b ≤ 0`. -/
structure Constraint where
  A : Mat
  b : Vec

/-- Modelled from the spec (§2, §4.6): the external `sys::System`
collaborator (its header is not among the visible sources).  Only the
parts the outer loop consumes are modelled: the horizon `T`, the initial
state `x0`, one-step dynamics, and the per-timestep scalar cost. -/
structure System where
  T : Nat
  x0 : Vec
  dynamics : Vec → Vec → Vec
  cost : Vec → Vec → Nat → ℚ

/-- Modelled from the spec (§4.3): the Riccati backward pass is missing
from the visible sources; it is abstracted as an oracle that, given the
current trajectory, multipliers and penalty, yields per-timestep
feedforward and feedback gains `(k_k, K_k)`. -/
abbrev BackwardPass := List Vec → List Vec → List Vec → ℚ → Nat → Vec × Mat

/-- The diagonal matrix with the given diagonal entries. -/
def diagMatrix : Vec → Mat
  | [] => []
  | d :: ds =>
      (d :: List.replicate ds.length 0) ::
        (diagMatrix ds).map (fun row => (0 : ℚ) :: row)

/-- Modelled from the spec (§4.1): `AL_ILQR::constraints` (declared at
AL-ILQR.h line 87, implementation missing) returns the same `A`,`b` given
at construction for the queried timestep. -/
def constraintsAt (ineq : List Constraint) (k : Nat) : Constraint :=
  ineq.getD k { A := [], b := [] }

/-- The constraint value `C_k = A_k·[x_k;u_k] - b_k`. -/
def constraintValue (c : Constraint) (x u : Vec) : Vec :=
  vsub (matVec c.A (x ++ u)) c.b

/-- Modelled from the spec (§9): the active-set mask diagonal — a row is
active (entry 1) when the constraint is violated or its multiplier is
positive, else inactive (entry 0). -/
def activeSet (lam c : Vec) : Vec :=
  List.zipWith (fun l ci => if 0 < ci ∨ 0 < l then (1 : ℚ) else 0) lam c

/-- Modelled from the spec (§4.2): `AL_ILQR::augmentedLossK` (declared at
AL-ILQR.h line 82, implementation missing): the per-timestep augmented
loss `L_k = cost(x_k,u_k,k) + λ_kᵗ·I_k·C_k + (penalty/2)·C_kᵗ·I_k·C_k`,
with `I_k` an arbitrary masking matrix argument. -/
def augmentedLossK (s : System) (xk uk : Vec) (k : Nat) (lambdak Ck : Vec)
    (Ik : Mat) (penalty : ℚ) : ℚ :=
  s.cost xk uk k + dot lambdak (matVec Ik Ck) +
    penalty / 2 * dot Ck (matVec Ik Ck)

/-- Total augmented cost over the horizon: sums `augmentedLossK` over the
timesteps, pairing each state/control with its multiplier and the
active-set mask recomputed from the current multiplier and violation. -/
def totalAugCostAux (s : System) (ineq : List Constraint) (penalty : ℚ) :
    Nat → List Vec → List Vec → List Vec → ℚ
  | k, x :: X, u :: U, lam :: L =>
      let c := constraintValue (constraintsAt ineq k) x u
      augmentedLossK s x u k lam c (diagMatrix (activeSet lam c)) penalty +
        totalAugCostAux s ineq penalty (k + 1) X U L
  | _, _, _, _ => 0

/-- Total augmented trajectory cost, starting at timestep 0. -/
def totalAugCost (s : System) (ineq : List Constraint) (lambdas : List Vec)
    (penalty : ℚ) (X U : List Vec) : ℚ :=
  totalAugCostAux s ineq penalty 0 X U lambdas

/-- Modelled from the spec (§4.4): the forward pass — starting from the
initial state, propagate the dynamics applying
`u_k_new = u_k_old + α·k_k + K_k·(x_k_new - x_k_old)`; returns the new
state trajectory `x_0..x_T` and control trajectory `u_0..u_{T-1}`. -/
def forwardPass (s : System) (g : Nat → Vec × Mat) (alpha : ℚ) :
    List Vec → List Vec → Vec → Nat → List Vec × List Vec
  | _, [], x, _ => ([x], [])
  | Xold, uo :: Uo, x, k =>
      let gk := g k
      let unew := vadd uo (vadd (smul alpha gk.1) (matVec gk.2 (vsub x (Xold.headD []))))
      let rest := forwardPass s g alpha Xold.tail Uo (s.dynamics x unew) (k + 1)
      (x :: rest.1, unew :: rest.2)

/-- Modelled from the spec (§4.4): the number of backtracking attempts
before the minimum step size is reached. -/
def lineSearchDepth : Nat := 10

/-- Modelled from the spec (§4.4): backtracking line search — try a step
size, accept the candidate trajectory iff its total augmented cost
strictly decreases versus the previous accepted trajectory, otherwise
halve the step size; when the minimum step size is reached keep the
previous trajectory unchanged. -/
def lineSearchRun (s : System) (ineq : List Constraint) (lambdas : List Vec)
    (penalty : ℚ) (g : Nat → Vec × Mat) (X U : List Vec) (prevCost : ℚ) :
    Nat → ℚ → List Vec × List Vec
  | 0, _ => (X, U)
  | n + 1, alpha =>
      let cand := forwardPass s g alpha X U s.x0 0
      if totalAugCost s ineq lambdas penalty cand.1 cand.2 < prevCost then cand
      else lineSearchRun s ineq lambdas penalty g X U prevCost n (alpha / 2)

/-- The mutable state of one `solve` call: current trajectory,
multipliers (`AL_ILQR::multipliers`, AL-ILQR.h line 91), penalty scalar,
and the early-stop flag. -/
structure ALState where
  X : List Vec
  U : List Vec
  lambdas : List Vec
  penalty : ℚ
  stopped : Bool

/-- Modelled from the spec (§4.3–§4.4): one Optimize step — backward pass
(the gains oracle) followed by the forward pass, with line search when
enabled and `α = 1` unconditionally otherwise.  Touches only the
trajectory, never the multipliers or penalty. -/
def optimizeStep (s : System) (ineq : List Constraint) (bwd : BackwardPass)
    (line_search : Bool) (st : ALState) : ALState :=
  let g := bwd st.X st.U st.lambdas st.penalty
  if line_search then
    let prevCost := totalAugCost s ineq st.lambdas st.penalty st.X st.U
    let r := lineSearchRun s ineq st.lambdas st.penalty g st.X st.U prevCost lineSearchDepth 1
    { st with X := r.1, U := r.2 }
  else
    let r := forwardPass s g 1 st.X st.U s.x0 0
    { st with X := r.1, U := r.2 }

/-- The per-timestep constraint violations `C_k` along a trajectory. -/
def violationsAux (ineq : List Constraint) : Nat → List Vec → List Vec → List Vec
  | k, x :: X, u :: U =>
      constraintValue (constraintsAt ineq k) x u :: violationsAux ineq (k + 1) X U
  | _, _, _ => []

/-- Constraint-violation trajectory, starting at timestep 0. -/
def violationsOf (ineq : List Constraint) (X U : List Vec) : List Vec :=
  violationsAux ineq 0 X U

/-- Modelled from the spec (§4.5): the multiplier update
`λ_k ← max(0, λ_k + penalty·C_k)`, projecting inequality multipliers to
stay non-negative. -/
def updateMultipliers (penalty : ℚ) (lambdas viols : List Vec) : List Vec :=
  List.zipWith (fun lam c => List.zipWith (fun l ci => max 0 (l + penalty * ci)) lam c)
    lambdas viols

/-- Modelled from the spec (§4.5): the small threshold on cost improvement
used by the early-stop transition. -/
def earlyStopThreshold : ℚ := 1 / 1000000

/-- Modelled from the spec (§4.5): one outer iteration `i` — Optimize,
then the multiplier/penalty update at iterations that are multiples of
`lag`, then the early-stop transition; a stopped state is left
untouched. -/
def outerStep (s : System) (ineq : List Constraint) (bwd : BackwardPass)
    (lag : Nat) (scaling : ℚ) (line_search early_stop : Bool)
    (i : Nat) (st : ALState) : ALState :=
  if st.stopped then st
  else
    let prevCost := totalAugCost s ineq st.lambdas st.penalty st.X st.U
    let st1 := optimizeStep s ineq bwd line_search st
    let newCost := totalAugCost s ineq st1.lambdas st1.penalty st1.X st1.U
    let st2 :=
      if i % lag = 0 then
        { st1 with
          lambdas := updateMultipliers st1.penalty st1.lambdas (violationsOf ineq st1.X st1.U),
          penalty := st1.penalty * scaling }
      else st1
    if early_stop = true ∧ |prevCost - newCost| < earlyStopThreshold then
      { st2 with stopped := true }
    else st2

/-- The first `n` outer iterations of the loop (spec §4.5). -/
def runIters (s : System) (ineq : List Constraint) (bwd : BackwardPass)
    (lag : Nat) (scaling : ℚ) (line_search early_stop : Bool) (st0 : ALState) :
    Nat → ALState
  | 0 => st0
  | n + 1 =>
      outerStep s ineq bwd lag scaling line_search early_stop n
        (runIters s ineq bwd lag scaling line_search early_stop st0 n)

/-- Roll the initial control sequence through the dynamics to obtain the
initial state trajectory `x_0..x_T`. -/
def rollout (s : System) : Vec → List Vec → List Vec
  | x, [] => [x]
  | x, u :: U => x :: rollout s (s.dynamics x u) U

/-- Modelled from the spec (§7): the configuration validation performed
before any optimization work (constructor, AL-ILQR.h line 56, and the top
of `solve`; implementations missing): matching multiplier/constraint
lengths, positive `nb_iter`, `lag_update_step` and `penalty`, and a
horizon match between `U0` and the System. -/
def validConfig (s : System) (ineq : List Constraint) (initLambda : List Vec)
    (U0 : List Vec) (nb_iter lag_update_step : Int) (penalty : ℚ) : Bool :=
  (initLambda.length == ineq.length) &&
  ((List.zip initLambda ineq).all fun p => p.1.length == p.2.b.length) &&
  decide (0 < nb_iter) && decide (0 < lag_update_step) && decide (0 < penalty) &&
  (U0.length == s.T)

/-- The configuration-error message of a failed `solve` call. -/
def configErrorMsg : String := "invalid configuration"

/-- Modelled from the spec (§4.5, §6, §7): `AL_ILQR::solve` (declared at
AL-ILQR.h lines 69–76, implementation missing).  Validates the
configuration, then runs `nb_iter` outer iterations from the rollout of
`U0` and returns the final (last accepted) state trajectory, control
trajectory and per-timestep constraint violations. -/
def solve (s : System) (ineq : List Constraint) (initLambda : List Vec)
    (bwd : BackwardPass) (U0 : List Vec) (nb_iter lag_update_step : Int)
    (penalty scaling_factor : ℚ) (line_search early_stop : Bool) :
    Except String (List Vec × List Vec × List Vec) :=
  if validConfig s ineq initLambda U0 nb_iter lag_update_step penalty then
    let st0 : ALState :=
      { X := rollout s s.x0 U0, U := U0, lambdas := initLambda,
        penalty := penalty, stopped := false }
    let fin := runIters s ineq bwd lag_update_step.toNat scaling_factor
      line_search early_stop st0 nb_iter.toNat
    Except.ok (fin.X, fin.U, violationsOf ineq fin.X fin.U)
  else
    Except.error configErrorMsg

/-- A concrete keypoint used to instantiate hypothesised theorems. -/
def demoKp : SpacetimeKeypoint :=
  { poseState := [1, 2], poseDiff := fun v => v, continuous_time_ := 5 }

/-- A concrete System used to instantiate hypothesised theorems. -/
def demoSys : System :=
  { T := 2, x0 := [0], dynamics := fun x u => vadd x u,
    cost := fun x u _ => dot x x + dot u u }

/-- A concrete backward-pass oracle used to instantiate hypothesised
theorems. -/
def demoBwd : BackwardPass := fun _ _ _ _ _ => ([0], [[0]])

/-- A concrete constraint list used to instantiate hypothesised theorems. -/
def demoIneq : List Constraint :=
  [{ A := [[1, 0]], b := [1] }, { A := [[1, 0]], b := [1] }]

/-- Concrete initial multipliers used to instantiate hypothesised
theorems. -/
def demoLambda : List Vec := [[0], [0]]

/-- A concrete initial solver state used to instantiate hypothesised
theorems. -/
def demoSt0 : ALState :=
  { X := rollout demoSys demoSys.x0 [[1], [1]], U := [[1], [1]],
    lambdas := demoLambda, penalty := 1, stopped := false }

theorem spacetime_diff_append (kp : SpacetimeKeypoint) (p : Vec) (t : ℚ) :
    kp.diff (p ++ [t]) = some (kp.poseDiff p ++ [kp.continuous_time_ - t]) := by
  unfold SpacetimeKeypoint.diff
  have hlen : (p ++ [t]).length = p.length + 1 := by simp
  have hget : (p ++ [t])[(p ++ [t]).length - 1]? = some t := by
    rw [hlen]
    simp [List.getElem?_append_right]
  rw [hget]
  have htake : (p ++ [t]).take ((p ++ [t]).length - 1) = p := by
    rw [hlen]
    simp [List.take_append]
  rw [htake]

/-- C1: For every time-augmented target with continuous time `t*` and every
augmented state vector whose trailing component is `t`, the residual
computed by `SpacetimeKeypoint::diff` equals the underlying pose residual
`d(pose)` (computed on the state with its trailing component removed)
concatenated with exactly one extra entry equal to `t* - t`. -/
theorem C1_diff_residual (kp : SpacetimeKeypoint) (p : Vec) (t : ℚ) :
    kp.diff (p ++ [t]) = some (kp.poseDiff p ++ [kp.continuous_time_ - t]) :=
  spacetime_diff_append kp p t

/-- C2: The state vector returned by `SpacetimeKeypoint::getState` equals the
underlying pose keypoint's state vector with exactly one extra scalar
appended at the end, and that scalar is the target's continuous time value. -/
theorem C2_getState_augmented (kp : SpacetimeKeypoint) :
    kp.getState.length = kp.poseState.length + 1 ∧
    kp.getState.take kp.poseState.length = kp.poseState ∧
    kp.getState.getLast? = some kp.continuous_time_ := by
  refine ⟨by simp [SpacetimeKeypoint.getState], ?_, ?_⟩
  · simp [SpacetimeKeypoint.getState, List.take_append]
  · simp [SpacetimeKeypoint.getState]

/-- C9: Two input states to `SpacetimeKeypoint::diff` that agree on all
components except the trailing (time) component produce residuals with an
identical pose part (all entries except the last): the trailing time
component influences only the last entry of the returned residual. -/
theorem C9_time_noninterference (kp : SpacetimeKeypoint) (p : Vec) (t1 t2 : ℚ) :
    (kp.diff (p ++ [t1])).map List.dropLast =
    (kp.diff (p ++ [t2])).map List.dropLast := by
  rw [spacetime_diff_append, spacetime_diff_append]
  simp

/-- C10: `SpacetimeKeypoint::diff` is well-defined exactly on non-empty input
states: for every input state with at least one component the accesses
(entry `rows-1`, head of length `rows-1`) are in range and a residual is
produced, while the empty state vector is an unhandled edge case. -/
theorem C10_diff_nonempty_safe (kp : SpacetimeKeypoint) (state : Vec)
    (h : state ≠ []) :
    (kp.diff state).isSome = true ∧ kp.diff [] = none := by
  constructor
  · obtain h0 | ⟨p, t, rfl⟩ := state.eq_nil_or_concat
    · exact absurd h0 h
    · rw [List.concat_eq_append, spacetime_diff_append]
      rfl
  · rfl

theorem dot_replicate_zero : ∀ (n : Nat) (v : Vec), dot (List.replicate n 0) v = 0 := by
  intro n
  induction n with
  | zero => intro v; simp [dot]
  | succ n ih =>
    intro v
    cases v with
    | nil => simp [dot]
    | cons y v =>
      have h := ih v
      simp [dot, List.replicate_succ] at h ⊢
      exact h

theorem matVec_map_cons_zero (y : ℚ) (v : Vec) :
    ∀ M : Mat, matVec (M.map (fun row => (0 : ℚ) :: row)) (y :: v) = matVec M v := by
  intro M
  induction M with
  | nil => rfl
  | cons r M ih =>
    show dot ((0 : ℚ) :: r) (y :: v) :: matVec (M.map (fun row => (0 : ℚ) :: row)) (y :: v) =
      dot r v :: matVec M v
    rw [ih]
    congr 1
    simp [dot]

theorem matVec_diag : ∀ d v : Vec, d.length = v.length →
    matVec (diagMatrix d) v = List.zipWith (· * ·) d v := by
  intro d
  induction d with
  | nil => intro v h; cases v <;> simp_all [diagMatrix, matVec]
  | cons x d ih =>
    intro v h
    cases v with
    | nil => simp at h
    | cons y v =>
      have hlen : d.length = v.length := by simpa using h
      show dot (x :: List.replicate d.length 0) (y :: v) ::
          matVec ((diagMatrix d).map (fun row => (0 : ℚ) :: row)) (y :: v) =
          x * y :: List.zipWith (· * ·) d v
      rw [matVec_map_cons_zero y v (diagMatrix d), ih v hlen]
      congr 1
      have hz := dot_replicate_zero d.length v
      simp [dot] at hz ⊢
      simp [hz]

theorem dot_eq_sum : ∀ a b : Vec,
    dot a b = ∑ i in Finset.range (min a.length b.length), a.getD i 0 * b.getD i 0 := by
  intro a
  induction a with
  | nil => intro b; simp [dot]
  | cons x a ih =>
    intro b
    cases b with
    | nil => simp [dot]
    | cons y b =>
      have hmin : min (x :: a).length (y :: b).length = min a.length b.length + 1 := by
        simp [Nat.succ_min_succ]
      rw [hmin, Finset.sum_range_succ']
      simp only [List.getD_cons_succ, List.getD_cons_zero]
      rw [← ih b]
      simp [dot]
      ring

theorem getD_zipWith_mul : ∀ (a b : Vec) (i : Nat), i < a.length → i < b.length →
    (List.zipWith (· * ·) a b).getD i 0 = a.getD i 0 * b.getD i 0 := by
  intro a
  induction a with
  | nil => intro b i h; simp at h
  | cons x a ih =>
    intro b i hi hb
    cases b with
    | nil => simp at hb
    | cons y b =>
      cases i with
      | zero => simp
      | succ i =>
        simpa using ih b i (by simpa using hi) (by simpa using hb)

/-- C3: For every state `x_k`, control `u_k`, timestep `k`, multiplier vector
`λ_k`, constraint value `C_k`, and 0/1 diagonal active-set mask `I_k`, the
solver's per-timestep augmented loss `augmentedLossK` equals the scalar
`cost(x_k,u_k,k) + λ_kᵗ·I_k·C_k + (penalty/2)·C_kᵗ·I_k·C_k`, the two
quadratic terms written out entrywise. -/
theorem C3_augmented_loss (s : System) (xk uk : Vec) (k n : Nat)
    (lam Ck d : Vec) (penalty : ℚ)
    (hlam : lam.length = n) (hC : Ck.length = n) (hd : d.length = n)
    (_h01 : ∀ x ∈ d, x = 0 ∨ x = 1) :
    augmentedLossK s xk uk k lam Ck (diagMatrix d) penalty =
      s.cost xk uk k +
        (∑ i in Finset.range n, lam.getD i 0 * (d.getD i 0 * Ck.getD i 0)) +
        penalty / 2 *
          (∑ i in Finset.range n, Ck.getD i 0 * (d.getD i 0 * Ck.getD i 0)) := by
  unfold augmentedLossK
  rw [matVec_diag d Ck (by rw [hd, hC])]
  rw [dot_eq_sum, dot_eq_sum]
  have hzlen : (List.zipWith (· * ·) d Ck).length = n := by
    simp [List.length_zipWith, hd, hC]
  rw [hlam, hC, hzlen]
  simp only [Nat.min_self]
  have hsum : ∀ c : Vec, c.length = n →
      (∑ i in Finset.range n, c.getD i 0 * (List.zipWith (· * ·) d Ck).getD i 0) =
      ∑ i in Finset.range n, c.getD i 0 * (d.getD i 0 * Ck.getD i 0) := by
    intro c hc
    refine Finset.sum_congr rfl fun i hi => ?_
    have hin : i < n := Finset.mem_range.mp hi
    rw [getD_zipWith_mul d Ck i (hd ▸ hin) (hC ▸ hin)]
  rw [hsum lam hlam, hsum Ck hC]

theorem C3_augmented_loss_witness :
    (([(1 : ℚ), 2]).length = 2 ∧ ([(3 : ℚ), 4]).length = 2 ∧
      ([(0 : ℚ), 1]).length = 2 ∧ ∀ x ∈ [(0 : ℚ), 1], x = 0 ∨ x = 1) ∧
    augmentedLossK demoSys [1] [1] 0 [1, 2] [3, 4] (diagMatrix [0, 1]) 5 =
      demoSys.cost [1] [1] 0 +
        (∑ i in Finset.range 2,
          ([(1 : ℚ), 2]).getD i 0 * (([(0 : ℚ), 1]).getD i 0 * ([(3 : ℚ), 4]).getD i 0)) +
        5 / 2 *
          (∑ i in Finset.range 2,
            ([(3 : ℚ), 4]).getD i 0 * (([(0 : ℚ), 1]).getD i 0 * ([(3 : ℚ), 4]).getD i 0)) :=
  ⟨⟨rfl, rfl, rfl, by decide⟩,
    C3_augmented_loss demoSys [1] [1] 0 2 [1, 2] [3, 4] [0, 1] 5 rfl rfl rfl (by decide)⟩

theorem optimizeStep_lambdas (s : System) (ineq : List Constraint)
    (bwd : BackwardPass) (ls : Bool) (st : ALState) :
    (optimizeStep s ineq bwd ls st).lambdas = st.lambdas := by
  cases ls <;> simp [optimizeStep]

theorem optimizeStep_penalty (s : System) (ineq : List Constraint)
    (bwd : BackwardPass) (ls : Bool) (st : ALState) :
    (optimizeStep s ineq bwd ls st).penalty = st.penalty := by
  cases ls <;> simp [optimizeStep]

theorem optimizeStep_stopped (s : System) (ineq : List Constraint)
    (bwd : BackwardPass) (ls : Bool) (st : ALState) :
    (optimizeStep s ineq bwd ls st).stopped = st.stopped := by
  cases ls <;> simp [optimizeStep]

theorem outerStep_of_stopped (s : System) (ineq : List Constraint)
    (bwd : BackwardPass) (lag : Nat) (scaling : ℚ) (ls es : Bool) (i : Nat)
    (st : ALState) (h : st.stopped = true) :
    outerStep s ineq bwd lag scaling ls es i st = st := by
  simp [outerStep, h]

theorem outerStep_X (s : System) (ineq : List Constraint) (bwd : BackwardPass)
    (lag : Nat) (scaling : ℚ) (ls es : Bool) (i : Nat) (st : ALState)
    (h : st.stopped = false) :
    (outerStep s ineq bwd lag scaling ls es i st).X =
      (optimizeStep s ineq bwd ls st).X := by
  simp only [outerStep, h, Bool.false_eq_true, if_false]
  split <;> split <;> rfl

theorem outerStep_U (s : System) (ineq : List Constraint) (bwd : BackwardPass)
    (lag : Nat) (scaling : ℚ) (ls es : Bool) (i : Nat) (st : ALState)
    (h : st.stopped = false) :
    (outerStep s ineq bwd lag scaling ls es i st).U =
      (optimizeStep s ineq bwd ls st).U := by
  simp only [outerStep, h, Bool.false_eq_true, if_false]
  split <;> split <;> rfl

theorem outerStep_lambdas (s : System) (ineq : List Constraint)
    (bwd : BackwardPass) (lag : Nat) (scaling : ℚ) (ls es : Bool) (i : Nat)
    (st : ALState) (h : st.stopped = false) :
    (outerStep s ineq bwd lag scaling ls es i st).lambdas =
      if i % lag = 0 then
        updateMultipliers st.penalty st.lambdas
          (violationsOf ineq (optimizeStep s ineq bwd ls st).X
            (optimizeStep s ineq bwd ls st).U)
      else st.lambdas := by
  simp only [outerStep, h, Bool.false_eq_true, if_false]
  by_cases hl : i % lag = 0 <;>
    simp only [hl, if_true, if_false, ite_true, ite_false] <;>
    split <;>
    simp [optimizeStep_lambdas, optimizeStep_penalty]

theorem outerStep_penalty (s : System) (ineq : List Constraint)
    (bwd : BackwardPass) (lag : Nat) (scaling : ℚ) (ls es : Bool) (i : Nat)
    (st : ALState) (h : st.stopped = false) :
    (outerStep s ineq bwd lag scaling ls es i st).penalty =
      if i % lag = 0 then st.penalty * scaling else st.penalty := by
  simp only [outerStep, h, Bool.false_eq_true, if_false]
  by_cases hl : i % lag = 0 <;>
    simp only [hl, if_true, if_false, ite_true, ite_false] <;>
    split <;>
    simp [optimizeStep_penalty]

theorem optimizeStep_ls_X (s : System) (ineq : List Constraint)
    (bwd : BackwardPass) (st : ALState) :
    (optimizeStep s ineq bwd true st).X =
      (lineSearchRun s ineq st.lambdas st.penalty
        (bwd st.X st.U st.lambdas st.penalty) st.X st.U
        (totalAugCost s ineq st.lambdas st.penalty st.X st.U)
        lineSearchDepth 1).1 := by
  simp [optimizeStep]

theorem optimizeStep_ls_U (s : System) (ineq : List Constraint)
    (bwd : BackwardPass) (st : ALState) :
    (optimizeStep s ineq bwd true st).U =
      (lineSearchRun s ineq st.lambdas st.penalty
        (bwd st.X st.U st.lambdas st.penalty) st.X st.U
        (totalAugCost s ineq st.lambdas st.penalty st.X st.U)
        lineSearchDepth 1).2 := by
  simp [optimizeStep]

theorem lineSearchRun_cases (s : System) (ineq : List Constraint)
    (lambdas : List Vec) (penalty : ℚ) (g : Nat → Vec × Mat) (X U : List Vec)
    (prevCost : ℚ) : ∀ (n : Nat) (alpha : ℚ),
    lineSearchRun s ineq lambdas penalty g X U prevCost n alpha = (X, U) ∨
    totalAugCost s ineq lambdas penalty
        (lineSearchRun s ineq lambdas penalty g X U prevCost n alpha).1
        (lineSearchRun s ineq lambdas penalty g X U prevCost n alpha).2 <
      prevCost := by
  intro n
  induction n with
  | zero => intro alpha; left; rfl
  | succ n ih =>
    intro alpha
    by_cases hc :
        totalAugCost s ineq lambdas penalty
          (forwardPass s g alpha X U s.x0 0).1
          (forwardPass s g alpha X U s.x0 0).2 < prevCost
    · right
      simp only [lineSearchRun, if_pos hc]
      exact hc
    · have heq : lineSearchRun s ineq lambdas penalty g X U prevCost (n + 1) alpha =
          lineSearchRun s ineq lambdas penalty g X U prevCost n (alpha / 2) := by
        simp only [lineSearchRun, if_neg hc]
      rw [heq]
      exact ih (alpha / 2)

theorem lineSearchRun_keep (s : System) (ineq : List Constraint)
    (lambdas : List Vec) (penalty : ℚ) (g : Nat → Vec × Mat) (X U : List Vec)
    (prevCost : ℚ)
    (hall : ∀ alpha : ℚ,
      ¬ totalAugCost s ineq lambdas penalty
          (forwardPass s g alpha X U s.x0 0).1
          (forwardPass s g alpha X U s.x0 0).2 < prevCost) :
    ∀ (n : Nat) (alpha : ℚ),
    lineSearchRun s ineq lambdas penalty g X U prevCost n alpha = (X, U) := by
  intro n
  induction n with
  | zero => intro alpha; rfl
  | succ n ih =>
    intro alpha
    simp only [lineSearchRun, if_neg (hall alpha)]
    exact ih (alpha / 2)

/-- C4: For every solve call with `line_search = true` and every outer
iteration `i`, the total (augmented) trajectory cost of the accepted
trajectory at outer iteration `i+1` is at most that of the trajectory at
outer iteration `i` (both measured with the multipliers and penalty in
effect during iteration `i`); and when no step size yields a strict
decrease, the previous accepted trajectory is kept unchanged for that
outer iteration. -/
theorem C4_line_search_monotone (s : System) (ineq : List Constraint)
    (bwd : BackwardPass) (lag : Nat) (scaling : ℚ) (early_stop : Bool)
    (st0 : ALState) (i : Nat) (sti stn : ALState)
    (hst : sti = runIters s ineq bwd lag scaling true early_stop st0 i)
    (hnext : stn = runIters s ineq bwd lag scaling true early_stop st0 (i + 1)) :
    totalAugCost s ineq sti.lambdas sti.penalty stn.X stn.U ≤
      totalAugCost s ineq sti.lambdas sti.penalty sti.X sti.U ∧
    ((∀ alpha : ℚ,
        ¬ totalAugCost s ineq sti.lambdas sti.penalty
            (forwardPass s (bwd sti.X sti.U sti.lambdas sti.penalty) alpha
              sti.X sti.U s.x0 0).1
            (forwardPass s (bwd sti.X sti.U sti.lambdas sti.penalty) alpha
              sti.X sti.U s.x0 0).2 <
          totalAugCost s ineq sti.lambdas sti.penalty sti.X sti.U) →
      stn.X = sti.X ∧ stn.U = sti.U) := by
  have hstep : stn = outerStep s ineq bwd lag scaling true early_stop i sti := by
    rw [hnext, hst]; rfl
  cases hstop : sti.stopped with
  | true =>
    have : stn = sti := by rw [hstep, outerStep_of_stopped _ _ _ _ _ _ _ _ _ hstop]
    rw [this]
    exact ⟨le_refl _, fun _ => ⟨rfl, rfl⟩⟩
  | false =>
    have hX : stn.X = (optimizeStep s ineq bwd true sti).X := by
      rw [hstep]; exact outerStep_X _ _ _ _ _ _ _ _ _ hstop
    have hU : stn.U = (optimizeStep s ineq bwd true sti).U := by
      rw [hstep]; exact outerStep_U _ _ _ _ _ _ _ _ _ hstop
    rw [hX, hU, optimizeStep_ls_X, optimizeStep_ls_U]
    constructor
    · rcases lineSearchRun_cases s ineq sti.lambdas sti.penalty
          (bwd sti.X sti.U sti.lambdas sti.penalty) sti.X sti.U
          (totalAugCost s ineq sti.lambdas sti.penalty sti.X sti.U)
          lineSearchDepth 1 with hkeep | hdec
      · rw [hkeep]
      · exact le_of_lt hdec
    · intro hall
      rw [lineSearchRun_keep s ineq sti.lambdas sti.penalty
          (bwd sti.X sti.U sti.lambdas sti.penalty) sti.X sti.U
          (totalAugCost s ineq sti.lambdas sti.penalty sti.X sti.U) hall
          lineSearchDepth 1]
      exact ⟨rfl, rfl⟩

theorem C4_line_search_monotone_witness :
    (demoSt0 = runIters demoSys demoIneq demoBwd 1 1 true false demoSt0 0 ∧
     runIters demoSys demoIneq demoBwd 1 1 true false demoSt0 1 =
       runIters demoSys demoIneq demoBwd 1 1 true false demoSt0 1) ∧
    (totalAugCost demoSys demoIneq demoSt0.lambdas demoSt0.penalty
        (runIters demoSys demoIneq demoBwd 1 1 true false demoSt0 1).X
        (runIters demoSys demoIneq demoBwd 1 1 true false demoSt0 1).U ≤
      totalAugCost demoSys demoIneq demoSt0.lambdas demoSt0.penalty
        demoSt0.X demoSt0.U ∧
    ((∀ alpha : ℚ,
        ¬ totalAugCost demoSys demoIneq demoSt0.lambdas demoSt0.penalty
            (forwardPass demoSys
              (demoBwd demoSt0.X demoSt0.U demoSt0.lambdas demoSt0.penalty)
              alpha demoSt0.X demoSt0.U demoSys.x0 0).1
            (forwardPass demoSys
              (demoBwd demoSt0.X demoSt0.U demoSt0.lambdas demoSt0.penalty)
              alpha demoSt0.X demoSt0.U demoSys.x0 0).2 <
          totalAugCost demoSys demoIneq demoSt0.lambdas demoSt0.penalty
            demoSt0.X demoSt0.U) →
      (runIters demoSys demoIneq demoBwd 1 1 true false demoSt0 1).X = demoSt0.X ∧
      (runIters demoSys demoIneq demoBwd 1 1 true false demoSt0 1).U = demoSt0.U)) :=
  ⟨⟨rfl, rfl⟩,
    C4_line_search_monotone demoSys demoIneq demoBwd 1 1 false demoSt0 0 demoSt0
      (runIters demoSys demoIneq demoBwd 1 1 true false demoSt0 1) rfl rfl⟩

/-- C5: During every solve call, the multiplier vectors change value only at
outer iterations `i` that are multiples of `lag_update_step`, where each
multiplier entry is updated as `λ ← max(0, λ + penalty·C)` (a projection
keeping inequality multipliers non-negative); at every other outer
iteration (and after an early stop) the multipliers are unchanged. -/
theorem C5_multiplier_cadence (s : System) (ineq : List Constraint)
    (bwd : BackwardPass) (lag : Nat) (scaling : ℚ) (ls es : Bool)
    (st0 : ALState) (i : Nat) (sti stn : ALState)
    (hst : sti = runIters s ineq bwd lag scaling ls es st0 i)
    (hnext : stn = runIters s ineq bwd lag scaling ls es st0 (i + 1)) :
    (sti.stopped = true → stn.lambdas = sti.lambdas) ∧
    (i % lag ≠ 0 → stn.lambdas = sti.lambdas) ∧
    (sti.stopped = false → i % lag = 0 →
      stn.lambdas =
        List.zipWith
          (fun lam c => List.zipWith (fun l ci => max 0 (l + sti.penalty * ci)) lam c)
          sti.lambdas (violationsOf ineq stn.X stn.U)) := by
  have hstep : stn = outerStep s ineq bwd lag scaling ls es i sti := by
    rw [hnext, hst]; rfl
  refine ⟨?_, ?_, ?_⟩
  · intro hstop
    rw [hstep, outerStep_of_stopped _ _ _ _ _ _ _ _ _ hstop]
  · intro hl
    cases hstop : sti.stopped with
    | true => rw [hstep, outerStep_of_stopped _ _ _ _ _ _ _ _ _ hstop]
    | false =>
      rw [hstep, outerStep_lambdas _ _ _ _ _ _ _ _ _ hstop, if_neg hl]
  · intro hstop hl
    have hX : stn.X = (optimizeStep s ineq bwd ls sti).X := by
      rw [hstep]; exact outerStep_X _ _ _ _ _ _ _ _ _ hstop
    have hU : stn.U = (optimizeStep s ineq bwd ls sti).U := by
      rw [hstep]; exact outerStep_U _ _ _ _ _ _ _ _ _ hstop
    rw [hX, hU]
    rw [hstep, outerStep_lambdas _ _ _ _ _ _ _ _ _ hstop, if_pos hl]
    rfl

theorem C5_multiplier_cadence_witness :
    (runIters demoSys demoIneq demoBwd 2 1 true false demoSt0 1 =
       runIters demoSys demoIneq demoBwd 2 1 true false demoSt0 1 ∧
     runIters demoSys demoIneq demoBwd 2 1 true false demoSt0 2 =
       runIters demoSys demoIneq demoBwd 2 1 true false demoSt0 2) ∧
    (((runIters demoSys demoIneq demoBwd 2 1 true false demoSt0 1).stopped = true →
        (runIters demoSys demoIneq demoBwd 2 1 true false demoSt0 2).lambdas =
          (runIters demoSys demoIneq demoBwd 2 1 true false demoSt0 1).lambdas) ∧
     (1 % 2 ≠ 0 →
        (runIters demoSys demoIneq demoBwd 2 1 true false demoSt0 2).lambdas =
          (runIters demoSys demoIneq demoBwd 2 1 true false demoSt0 1).lambdas) ∧
     ((runIters demoSys demoIneq demoBwd 2 1 true false demoSt0 1).stopped = false →
      1 % 2 = 0 →
        (runIters demoSys demoIneq demoBwd 2 1 true false demoSt0 2).lambdas =
          List.zipWith
            (fun lam c =>
              List.zipWith
                (fun l ci =>
                  max 0
                    (l +
                      (runIters demoSys demoIneq demoBwd 2 1 true false
                          demoSt0 1).penalty * ci))
                lam c)
            (runIters demoSys demoIneq demoBwd 2 1 true false demoSt0 1).lambdas
            (violationsOf demoIneq
              (runIters demoSys demoIneq demoBwd 2 1 true false demoSt0 2).X
              (runIters demoSys demoIneq demoBwd 2 1 true false demoSt0 2).U))) :=
  ⟨⟨rfl, rfl⟩,
    C5_multiplier_cadence demoSys demoIneq demoBwd 2 1 true false demoSt0 1
      (runIters demoSys demoIneq demoBwd 2 1 true false demoSt0 1)
      (runIters demoSys demoIneq demoBwd 2 1 true false demoSt0 2) rfl rfl⟩

theorem runIters_penalty_nonneg (s : System) (ineq : List Constraint)
    (bwd : BackwardPass) (lag : Nat) (scaling : ℚ) (ls es : Bool)
    (st0 : ALState) (hpen : 0 ≤ st0.penalty) (hscale : 0 ≤ scaling) :
    ∀ i : Nat, 0 ≤ (runIters s ineq bwd lag scaling ls es st0 i).penalty := by
  intro i
  induction i with
  | zero => exact hpen
  | succ i ih =>
    show 0 ≤ (outerStep s ineq bwd lag scaling ls es i
      (runIters s ineq bwd lag scaling ls es st0 i)).penalty
    cases hstop : (runIters s ineq bwd lag scaling ls es st0 i).stopped with
    | true => rw [outerStep_of_stopped _ _ _ _ _ _ _ _ _ hstop]; exact ih
    | false =>
      rw [outerStep_penalty _ _ _ _ _ _ _ _ _ hstop]
      by_cases hl : i % lag = 0
      · rw [if_pos hl]; exact mul_nonneg ih hscale
      · rw [if_neg hl]; exact ih

/-- C6: Within a single solve call with `scaling_factor ≥ 1`, the penalty
scalar starts at the caller-supplied value, is multiplied by
`scaling_factor` exactly at the iterations where the multipliers are
updated (unchanged at every other iteration, so never reset mid-solve),
and is monotonically non-decreasing across all outer iterations. -/
theorem C6_penalty_monotone (s : System) (ineq : List Constraint)
    (bwd : BackwardPass) (lag : Nat) (scaling : ℚ) (ls es : Bool)
    (st0 : ALState) (hscale : 1 ≤ scaling) (hpen : 0 ≤ st0.penalty) :
    (runIters s ineq bwd lag scaling ls es st0 0).penalty = st0.penalty ∧
    (∀ i : Nat,
      ((runIters s ineq bwd lag scaling ls es st0 i).stopped = false →
        i % lag = 0 →
        (runIters s ineq bwd lag scaling ls es st0 (i + 1)).penalty =
          (runIters s ineq bwd lag scaling ls es st0 i).penalty * scaling) ∧
      ((runIters s ineq bwd lag scaling ls es st0 i).stopped = true ∨ i % lag ≠ 0 →
        (runIters s ineq bwd lag scaling ls es st0 (i + 1)).penalty =
          (runIters s ineq bwd lag scaling ls es st0 i).penalty)) ∧
    (∀ i j : Nat, i ≤ j →
      (runIters s ineq bwd lag scaling ls es st0 i).penalty ≤
        (runIters s ineq bwd lag scaling ls es st0 j).penalty) := by
  have hscale0 : (0 : ℚ) ≤ scaling := le_trans zero_le_one hscale
  have hnn := runIters_penalty_nonneg s ineq bwd lag scaling ls es st0 hpen hscale0
  have hchar : ∀ i : Nat,
      ((runIters s ineq bwd lag scaling ls es st0 i).stopped = false →
        i % lag = 0 →
        (runIters s ineq bwd lag scaling ls es st0 (i + 1)).penalty =
          (runIters s ineq bwd lag scaling ls es st0 i).penalty * scaling) ∧
      ((runIters s ineq bwd lag scaling ls es st0 i).stopped = true ∨ i % lag ≠ 0 →
        (runIters s ineq bwd lag scaling ls es st0 (i + 1)).penalty =
          (runIters s ineq bwd lag scaling ls es st0 i).penalty) := by
    intro i
    constructor
    · intro hstop hl
      show (outerStep s ineq bwd lag scaling ls es i
        (runIters s ineq bwd lag scaling ls es st0 i)).penalty = _
      rw [outerStep_penalty _ _ _ _ _ _ _ _ _ hstop, if_pos hl]
    · intro hor
      show (outerStep s ineq bwd lag scaling ls es i
        (runIters s ineq bwd lag scaling ls es st0 i)).penalty = _
      rcases hor with hstop | hl
      · rw [outerStep_of_stopped _ _ _ _ _ _ _ _ _ hstop]
      · cases hstop : (runIters s ineq bwd lag scaling ls es st0 i).stopped with
        | true => rw [outerStep_of_stopped _ _ _ _ _ _ _ _ _ hstop]
        | false => rw [outerStep_penalty _ _ _ _ _ _ _ _ _ hstop, if_neg hl]
  have hmono1 : ∀ i : Nat,
      (runIters s ineq bwd lag scaling ls es st0 i).penalty ≤
        (runIters s ineq bwd lag scaling ls es st0 (i + 1)).penalty := by
    intro i
    cases hstop : (runIters s ineq bwd lag scaling ls es st0 i).stopped with
    | true => rw [(hchar i).2 (Or.inl hstop)]
    | false =>
      by_cases hl : i % lag = 0
      · rw [(hchar i).1 hstop hl]
        exact le_mul_of_one_le_right (hnn i) hscale
      · rw [(hchar i).2 (Or.inr hl)]
  refine ⟨rfl, hchar, ?_⟩
  intro i j hij
  induction j with
  | zero =>
    have : i = 0 := Nat.le_zero.mp hij
    rw [this]
  | succ j ihj =>
    rcases Nat.lt_or_ge i (j + 1) with hlt | hge
    · exact le_trans (ihj (Nat.lt_succ_iff.mp hlt)) (hmono1 j)
    · have : i = j + 1 := Nat.le_antisymm hij hge
      rw [this]

theorem C6_penalty_monotone_witness :
    ((1 : ℚ) ≤ 1 ∧ (0 : ℚ) ≤ demoSt0.penalty) ∧
    ((runIters demoSys demoIneq demoBwd 2 1 true false demoSt0 0).penalty =
        demoSt0.penalty ∧
      (∀ i : Nat,
        ((runIters demoSys demoIneq demoBwd 2 1 true false demoSt0 i).stopped = false →
          i % 2 = 0 →
          (runIters demoSys demoIneq demoBwd 2 1 true false demoSt0 (i + 1)).penalty =
            (runIters demoSys demoIneq demoBwd 2 1 true false demoSt0 i).penalty * 1) ∧
        ((runIters demoSys demoIneq demoBwd 2 1 true false demoSt0 i).stopped = true ∨
            i % 2 ≠ 0 →
          (runIters demoSys demoIneq demoBwd 2 1 true false demoSt0 (i + 1)).penalty =
            (runIters demoSys demoIneq demoBwd 2 1 true false demoSt0 i).penalty)) ∧
      (∀ i j : Nat, i ≤ j →
        (runIters demoSys demoIneq demoBwd 2 1 true false demoSt0 i).penalty ≤
          (runIters demoSys demoIneq demoBwd 2 1 true false demoSt0 j).penalty)) :=
  ⟨⟨by decide, by decide⟩,
    C6_penalty_monotone demoSys demoIneq demoBwd 2 1 true false demoSt0
      (by decide) (by decide)⟩

theorem forwardPass_lengths (s : System) (g : Nat → Vec × Mat) (alpha : ℚ) :
    ∀ (U X : List Vec) (x : Vec) (k : Nat),
    (forwardPass s g alpha X U x k).1.length = U.length + 1 ∧
    (forwardPass s g alpha X U x k).2.length = U.length := by
  intro U
  induction U with
  | nil => intro X x k; exact ⟨rfl, rfl⟩
  | cons u U ih =>
    intro X x k
    have h := ih X.tail
      (s.dynamics x
        (vadd u (vadd (smul alpha (g k).1) (matVec (g k).2 (vsub x (X.headD []))))))
      (k + 1)
    simp only [forwardPass, List.length_cons]
    exact ⟨by rw [h.1], by rw [h.2]⟩

theorem lineSearchRun_lengths (s : System) (ineq : List Constraint)
    (lambdas : List Vec) (penalty : ℚ) (g : Nat → Vec × Mat) (X U : List Vec)
    (prevCost : ℚ) (hX : X.length = U.length + 1) : ∀ (n : Nat) (alpha : ℚ),
    (lineSearchRun s ineq lambdas penalty g X U prevCost n alpha).1.length =
      U.length + 1 ∧
    (lineSearchRun s ineq lambdas penalty g X U prevCost n alpha).2.length =
      U.length := by
  intro n
  induction n with
  | zero => intro alpha; exact ⟨hX, rfl⟩
  | succ n ih =>
    intro alpha
    by_cases hc :
        totalAugCost s ineq lambdas penalty
          (forwardPass s g alpha X U s.x0 0).1
          (forwardPass s g alpha X U s.x0 0).2 < prevCost
    · simp only [lineSearchRun, if_pos hc]
      exact forwardPass_lengths s g alpha U X s.x0 0
    · simp only [lineSearchRun, if_neg hc]
      exact ih (alpha / 2)

theorem optimizeStep_lengths (s : System) (ineq : List Constraint)
    (bwd : BackwardPass) (ls : Bool) (st : ALState)
    (hX : st.X.length = st.U.length + 1) :
    (optimizeStep s ineq bwd ls st).X.length = st.U.length + 1 ∧
    (optimizeStep s ineq bwd ls st).U.length = st.U.length := by
  cases ls with
  | false =>
    simp only [optimizeStep, Bool.false_eq_true, if_false]
    exact forwardPass_lengths s (bwd st.X st.U st.lambdas st.penalty) 1 st.U st.X s.x0 0
  | true =>
    simp only [optimizeStep, if_true]
    exact lineSearchRun_lengths s ineq st.lambdas st.penalty
      (bwd st.X st.U st.lambdas st.penalty) st.X st.U
      (totalAugCost s ineq st.lambdas st.penalty st.X st.U) hX lineSearchDepth 1

theorem runIters_lengths (s : System) (ineq : List Constraint)
    (bwd : BackwardPass) (lag : Nat) (scaling : ℚ) (ls es : Bool)
    (st0 : ALState) (hX : st0.X.length = st0.U.length + 1) : ∀ n : Nat,
    (runIters s ineq bwd lag scaling ls es st0 n).X.length =
      (runIters s ineq bwd lag scaling ls es st0 n).U.length + 1 ∧
    (runIters s ineq bwd lag scaling ls es st0 n).U.length = st0.U.length := by
  intro n
  induction n with
  | zero => exact ⟨hX, rfl⟩
  | succ n ih =>
    have hstep : runIters s ineq bwd lag scaling ls es st0 (n + 1) =
        outerStep s ineq bwd lag scaling ls es n
          (runIters s ineq bwd lag scaling ls es st0 n) := rfl
    cases hstop : (runIters s ineq bwd lag scaling ls es st0 n).stopped with
    | true =>
      rw [hstep, outerStep_of_stopped _ _ _ _ _ _ _ _ _ hstop]
      exact ih
    | false =>
      have h := optimizeStep_lengths s ineq bwd ls
        (runIters s ineq bwd lag scaling ls es st0 n) ih.1
      constructor
      · rw [hstep, outerStep_X _ _ _ _ _ _ _ _ _ hstop,
          outerStep_U _ _ _ _ _ _ _ _ _ hstop, h.1, h.2]
      · rw [hstep, outerStep_U _ _ _ _ _ _ _ _ _ hstop, h.2]
        exact ih.2

theorem rollout_length (s : System) : ∀ (U : List Vec) (x : Vec),
    (rollout s x U).length = U.length + 1 := by
  intro U
  induction U with
  | nil => intro x; rfl
  | cons u U ih => intro x; simp only [rollout, List.length_cons, ih]

theorem violationsAux_length (ineq : List Constraint) :
    ∀ (X U : List Vec) (k : Nat),
    (violationsAux ineq k X U).length = min X.length U.length := by
  intro X
  induction X with
  | nil => intro U k; cases U <;> rfl
  | cons x X ih =>
    intro U k
    cases U with
    | nil => rfl
    | cons u U =>
      simp only [violationsAux, List.length_cons, ih U (k + 1),
        Nat.succ_min_succ]

/-- C7: Every solve call that passes configuration validation returns exactly
three sequences over the horizon — states `x_0..x_T`, controls
`u_0..u_{T-1}` and per-timestep constraint violations — and the returned
trajectory is that of the final solver state (the last accepted forward
pass), with no feasibility requirement, even when `nb_iter` is exhausted. -/
theorem C7_solve_returns (s : System) (ineq : List Constraint)
    (initLambda : List Vec) (bwd : BackwardPass) (U0 : List Vec)
    (nb_iter lag_update_step : Int) (penalty scaling_factor : ℚ)
    (line_search early_stop : Bool) (fin : ALState)
    (hvalid : validConfig s ineq initLambda U0 nb_iter lag_update_step penalty = true)
    (hfin : fin = runIters s ineq bwd lag_update_step.toNat scaling_factor
      line_search early_stop
      { X := rollout s s.x0 U0, U := U0, lambdas := initLambda,
        penalty := penalty, stopped := false } nb_iter.toNat) :
    solve s ineq initLambda bwd U0 nb_iter lag_update_step penalty
        scaling_factor line_search early_stop =
      Except.ok (fin.X, fin.U, violationsOf ineq fin.X fin.U) ∧
    fin.X.length = s.T + 1 ∧ fin.U.length = s.T ∧
    (violationsOf ineq fin.X fin.U).length = s.T := by
  have hU0 : U0.length = s.T := by
    simp only [validConfig, Bool.and_eq_true, beq_iff_eq, decide_eq_true_eq] at hvalid
    exact hvalid.2
  have hlen := runIters_lengths s ineq bwd lag_update_step.toNat scaling_factor
    line_search early_stop
    { X := rollout s s.x0 U0, U := U0, lambdas := initLambda,
      penalty := penalty, stopped := false }
    (by simpa using rollout_length s U0 s.x0) nb_iter.toNat
  rw [← hfin] at hlen
  have hUlen : fin.U.length = s.T := by rw [hlen.2]; exact hU0
  have hXlen : fin.X.length = s.T + 1 := by rw [hlen.1, hUlen]
  refine ⟨?_, hXlen, hUlen, ?_⟩
  · rw [hfin]
    simp only [solve, hvalid, if_true]
  · show (violationsAux ineq 0 fin.X fin.U).length = s.T
    rw [violationsAux_length ineq fin.X fin.U 0, hXlen, hUlen]
    simp

theorem C7_solve_returns_witness :
    (validConfig demoSys demoIneq demoLambda [[1], [1]] 3 1 1 = true ∧
     runIters demoSys demoIneq demoBwd (1 : Int).toNat 1 true false
         { X := rollout demoSys demoSys.x0 [[1], [1]], U := [[1], [1]],
           lambdas := demoLambda, penalty := 1, stopped := false }
         (3 : Int).toNat =
       runIters demoSys demoIneq demoBwd (1 : Int).toNat 1 true false
         { X := rollout demoSys demoSys.x0 [[1], [1]], U := [[1], [1]],
           lambdas := demoLambda, penalty := 1, stopped := false }
         (3 : Int).toNat) ∧
    (solve demoSys demoIneq demoLambda demoBwd [[1], [1]] 3 1 1 1 true false =
      Except.ok
        ((runIters demoSys demoIneq demoBwd (1 : Int).toNat 1 true false
            { X := rollout demoSys demoSys.x0 [[1], [1]], U := [[1], [1]],
              lambdas := demoLambda, penalty := 1, stopped := false }
            (3 : Int).toNat).X,
         (runIters demoSys demoIneq demoBwd (1 : Int).toNat 1 true false
            { X := rollout demoSys demoSys.x0 [[1], [1]], U := [[1], [1]],
              lambdas := demoLambda, penalty := 1, stopped := false }
            (3 : Int).toNat).U,
         violationsOf demoIneq
           (runIters demoSys demoIneq demoBwd (1 : Int).toNat 1 true false
              { X := rollout demoSys demoSys.x0 [[1], [1]], U := [[1], [1]],
                lambdas := demoLambda, penalty := 1, stopped := false }
              (3 : Int).toNat).X
           (runIters demoSys demoIneq demoBwd (1 : Int).toNat 1 true false
              { X := rollout demoSys demoSys.x0 [[1], [1]], U := [[1], [1]],
                lambdas := demoLambda, penalty := 1, stopped := false }
              (3 : Int).toNat).U) ∧
     (runIters demoSys demoIneq demoBwd (1 : Int).toNat 1 true false
        { X := rollout demoSys demoSys.x0 [[1], [1]], U := [[1], [1]],
          lambdas := demoLambda, penalty := 1, stopped := false }
        (3 : Int).toNat).X.length = demoSys.T + 1 ∧
     (runIters demoSys demoIneq demoBwd (1 : Int).toNat 1 true false
        { X := rollout demoSys demoSys.x0 [[1], [1]], U := [[1], [1]],
          lambdas := demoLambda, penalty := 1, stopped := false }
        (3 : Int).toNat).U.length = demoSys.T ∧
     (violationsOf demoIneq
        (runIters demoSys demoIneq demoBwd (1 : Int).toNat 1 true false
           { X := rollout demoSys demoSys.x0 [[1], [1]], U := [[1], [1]],
             lambdas := demoLambda, penalty := 1, stopped := false }
           (3 : Int).toNat).X
        (runIters demoSys demoIneq demoBwd (1 : Int).toNat 1 true false
           { X := rollout demoSys demoSys.x0 [[1], [1]], U := [[1], [1]],
             lambdas := demoLambda, penalty := 1, stopped := false }
           (3 : Int).toNat).U).length = demoSys.T) :=
  ⟨⟨by decide, rfl⟩,
    C7_solve_returns demoSys demoIneq demoLambda demoBwd [[1], [1]] 3 1 1 1
      true false
      (runIters demoSys demoIneq demoBwd (1 : Int).toNat 1 true false
        { X := rollout demoSys demoSys.x0 [[1], [1]], U := [[1], [1]],
          lambdas := demoLambda, penalty := 1, stopped := false }
        (3 : Int).toNat)
      (by decide) rfl⟩

/-- C8: Every solve call with an invalid configuration — mismatched
multiplier/constraint lengths, non-positive `nb_iter`, `lag_update_step`
or `penalty`, or a horizon mismatch between `U0` and the System — fails
with a configuration error, and the outcome is independent of the
optimization machinery (the backward-pass oracle, the scaling factor and
the line-search/early-stop flags): no backward or forward pass can
influence it, and the returned error carries no solver state. -/
theorem C8_invalid_config_fails (s : System) (ineq : List Constraint)
    (initLambda : List Vec) (U0 : List Vec) (nb_iter lag_update_step : Int)
    (penalty : ℚ)
    (hinvalid :
      validConfig s ineq initLambda U0 nb_iter lag_update_step penalty = false) :
    ∀ (bwd : BackwardPass) (scaling_factor : ℚ) (line_search early_stop : Bool),
      solve s ineq initLambda bwd U0 nb_iter lag_update_step penalty
          scaling_factor line_search early_stop =
        Except.error configErrorMsg := by
  intro bwd scaling_factor line_search early_stop
  simp only [solve, hinvalid, Bool.false_eq_true, if_false]

theorem C8_invalid_config_fails_witness :
    (validConfig demoSys demoIneq demoLambda [[1], [1]] 0 1 1 = false) ∧
    (∀ (bwd : BackwardPass) (scaling_factor : ℚ) (line_search early_stop : Bool),
      solve demoSys demoIneq demoLambda bwd [[1], [1]] 0 1 1
          scaling_factor line_search early_stop =
        Except.error configErrorMsg) :=
  ⟨by decide,
    C8_invalid_config_fails demoSys demoIneq demoLambda [[1], [1]] 0 1 1 (by decide)⟩

theorem C10_diff_nonempty_safe_witness :
    ([(3 : ℚ)] ≠ []) ∧
    ((demoKp.diff [3]).isSome = true ∧ demoKp.diff [] = none) :=
  ⟨by decide, C10_diff_nonempty_safe demoKp [3] (by decide)⟩

end IlqrPlanner
